import Mathlib

/-!
Shallow embedding of the PyEdgeTwin streaming runtime core
(`src/pyedgetwin/runtime/queueing.py`, `src/pyedgetwin/io/mqtt.py`,
`src/pyedgetwin/io/schemas.py`, `src/pyedgetwin/runtime/runner.py`),
with theorems settling the specification claims about it.
-/

namespace PyEdgeTwin

/-! ## Bounded queue (`runtime/queueing.py`, class `BoundedQueue`)

The queue state mirrors the fields of `BoundedQueue`: the underlying
`queue.Queue` contents (front of the list = oldest item), `_maxsize`,
`_policy`, `_dropped_count` and `_total_put`.  Python's `queue.Queue`
treats `maxsize <= 0` as unbounded, so "full" is
`0 < maxsize ∧ maxsize ≤ length`.

The `block` policy's `queue.put(item, block=True, timeout=timeout)` waits
for a concurrent consumer; in this sequential embedding the wait outcome
is an explicit parameter `freed`: `freed = true` means a consumer performed
a `get` (removing the oldest item) during the wait, so the put is admitted;
`freed = false` means the timeout elapsed with the queue still full, in
which case the code raises `QueueOverflowError`.
-/

inductive OverflowPolicy where
  | dropOldest
  | dropNewest
  | block
deriving DecidableEq, Repr

structure QueueState (α : Type) where
  items : List α
  maxsize : Nat
  policy : OverflowPolicy
  droppedCount : Nat
  totalPut : Nat
deriving DecidableEq, Repr

namespace BoundedQueue

/-- `BoundedQueue.__init__`: empty queue with the given capacity and policy
(the invalid-policy `ValueError` is outside this type's range). -/
def init (α : Type) (maxsize : Nat) (policy : OverflowPolicy) : QueueState α :=
  { items := [], maxsize := maxsize, policy := policy, droppedCount := 0, totalPut := 0 }

/-- `queue.Queue.full()` / the condition under which `put_nowait` raises
`queue.Full`: `0 < maxsize` and the current size has reached `maxsize`. -/
def isFull {α : Type} (s : QueueState α) : Bool :=
  0 < s.maxsize && s.maxsize ≤ s.items.length

/-- Outcome of one `put` call: the boolean return value, the
`QueueOverflowError` raised by the `block` policy on timeout, or the
uncaught `queue.Full` that the `drop_oldest` branch would propagate if
`put_nowait` failed again after removing the oldest item (dead code in
any sequential execution, kept for faithfulness). -/
inductive PutOutcome where
  | ok (accepted : Bool)
  | overflowError
  | uncaughtFull
deriving DecidableEq, Repr

/-- `BoundedQueue._handle_overflow(item, timeout)`, reached when
`put_nowait` raised `queue.Full`.  Returns the updated queue state and the
call's outcome. -/
def handleOverflow {α : Type} (s : QueueState α) (item : α) (freed : Bool) :
    QueueState α × PutOutcome :=
  match s.policy with
  | .dropOldest =>
    match s.items with
    | [] =>
      -- `queue.Empty`: the queue was emptied between checks; try again
      if isFull s then
        ({ s with droppedCount := s.droppedCount + 1 }, .ok false)
      else
        ({ s with items := [item] }, .ok true)
    | _oldest :: rest =>
      -- `get_nowait()` removed the oldest, `_dropped_count += 1`,
      -- then `put_nowait(item)` (uncaught `queue.Full` if still full)
      let s' : QueueState α :=
        { s with items := rest, droppedCount := s.droppedCount + 1 }
      if isFull s' then (s', .uncaughtFull)
      else ({ s' with items := rest ++ [item] }, .ok true)
  | .dropNewest =>
    ({ s with droppedCount := s.droppedCount + 1 }, .ok false)
  | .block =>
    if freed then
      -- a consumer's `get` removed the oldest item during the wait,
      -- and the blocked `put` then admitted the new item
      ({ s with items := s.items.tail ++ [item] }, .ok true)
    else
      (s, .overflowError)

/-- `BoundedQueue.put(item, timeout)`: increment `_total_put`, try
`put_nowait`, and fall back to `_handle_overflow` on `queue.Full`. -/
def put {α : Type} (s : QueueState α) (item : α) (freed : Bool) :
    QueueState α × PutOutcome :=
  let s' : QueueState α := { s with totalPut := s.totalPut + 1 }
  if isFull s' then handleOverflow s' item freed
  else ({ s' with items := s'.items ++ [item] }, .ok true)

/-- `BoundedQueue.get(timeout)`: return the oldest item, or `none` for the
`queue.Empty` raised when the timeout elapses on an empty queue. -/
def get {α : Type} (s : QueueState α) : QueueState α × Option α :=
  match s.items with
  | [] => (s, none)
  | x :: rest => ({ s with items := rest }, some x)

/-- `BoundedQueue.size` property: `qsize()`. -/
def size {α : Type} (s : QueueState α) : Nat :=
  s.items.length

/-- One queue operation issued by a caller: a `put` (with the `block`
policy's wait outcome) or a `get`. -/
inductive QueueOp (α : Type) where
  | putOp (item : α) (freed : Bool)
  | getOp
deriving DecidableEq, Repr

/-- The state reached after one operation. -/
def step {α : Type} (s : QueueState α) : QueueOp α → QueueState α
  | .putOp x freed => (put s x freed).1
  | .getOp => (get s).1

/-- The state reached after a sequence of operations. -/
def run {α : Type} (s : QueueState α) (ops : List (QueueOp α)) : QueueState α :=
  ops.foldl step s

/-- Number of `put` calls in a sequence of operations. -/
def countPuts {α : Type} (ops : List (QueueOp α)) : Nat :=
  ops.countP (fun op => match op with | .putOp _ _ => true | .getOp => false)

end BoundedQueue

/-! ## MQTT connector topic routing (`io/mqtt.py`, class `MQTTConnector`)

`_matches_topic` splits pattern and topic on `"/"` (Python `str.split("/")`)
and walks the pattern segments with an indexed loop.  `subscribe` stores the
callback in the `_callbacks` dict keyed by pattern (Python dicts keep
insertion order; assigning to an existing key replaces the value in place).
`_find_callback` first does an exact dict lookup on the topic, then scans
the dict items in order for the first wildcard match.  Callbacks are
modelled by opaque identifiers. -/

/-- Python `str.split("/")` on the character list: splitting an empty string
yields `[""]`, adjacent separators yield empty segments. -/
def splitSlash : List Char → List (List Char)
  | [] => [[]]
  | c :: rest =>
    match splitSlash rest with
    | [] => [[]]
    | seg :: segs => if c = '/' then [] :: seg :: segs else (c :: seg) :: segs

/-- `pattern.split("/")` / `topic.split("/")` as used by `_matches_topic`. -/
def strSplitSlash (s : String) : List String :=
  (splitSlash s.data).map String.mk

namespace MQTTConnector

/-- The loop body of `MQTTConnector._matches_topic` over the already-split
segment lists: `"#"` matches the remainder and returns immediately; a topic
shorter than the pattern fails; a segment that is neither `"+"` nor equal to
the topic segment fails; after the loop the lengths must be equal (here:
both lists exhausted together). -/
def matchesTopicParts : List String → List String → Bool
  | [], ts => decide (ts = [])
  | p :: ps, ts =>
    if p = "#" then true
    else
      match ts with
      | [] => false
      | t :: ts' =>
        if p ≠ "+" ∧ p ≠ t then false
        else matchesTopicParts ps ts'

/-- `MQTTConnector._matches_topic(pattern, topic)`. -/
def matchesTopic (pattern topic : String) : Bool :=
  matchesTopicParts (strSplitSlash pattern) (strSplitSlash topic)

/-- Opaque stand-in for a registered message callback. -/
abbrev CallbackId := Nat

/-- The `_callbacks` dict: patterns with their callbacks in insertion
order, keys unique. -/
abbrev SubTable := List (String × CallbackId)

/-- `MQTTConnector.subscribe(topic, callback)`'s effect on `_callbacks`:
Python dict assignment replaces the value of an existing key in place
(keeping its insertion position) and otherwise appends a new entry. -/
def subscribe (tbl : SubTable) (topic : String) (cb : CallbackId) : SubTable :=
  if tbl.any (fun e => e.1 = topic) then
    tbl.map (fun e => if e.1 = topic then (e.1, cb) else e)
  else
    tbl ++ [(topic, cb)]

/-- `MQTTConnector._find_callback(topic)`: exact dict lookup first, then
the first registered pattern (dict iteration order = insertion order) for
which `_matches_topic` holds. -/
def findCallback (tbl : SubTable) (topic : String) : Option CallbackId :=
  match tbl.lookup topic with
  | some cb => some cb
  | none => (tbl.find? (fun e => matchesTopic e.1 topic)).map Prod.snd

end MQTTConnector

/-! ## Message schemas (`io/schemas.py`)

Python values appearing in raw payload dictionaries are modelled by
`PyVal`; `datetime` objects are modelled as an abstract term algebra
`PyDateTime` recording how the object was produced (only construction
success/failure and identity matter to the claims, not calendar
arithmetic).  Dictionaries are insertion-ordered association lists with
unique keys, as in Python. -/

/-- A `datetime` object, abstracted by its construction. `nowAt`/`utcNowAt`
carry an abstract clock reading. -/
inductive PyDateTime where
  | fromIso (s : String)
  | fromUnix (q : ℚ)
  | nowAt (n : Nat)
  | utcNowAt (n : Nat)
deriving DecidableEq, Repr

/-- `datetime.isoformat()`, abstracted to an injective rendering of the
term (the exact text is irrelevant to the claims). -/
def PyDateTime.isoformat : PyDateTime → String
  | .fromIso s => s
  | .fromUnix q => "unix:" ++ toString q
  | .nowAt n => "now:" ++ toString n
  | .utcNowAt n => "utc:" ++ toString n

/-- A Python value in a payload dictionary: string, number (int or float,
as a rational), boolean, `None`, a `datetime` object, or a nested dict. -/
inductive PyVal where
  | str (s : String)
  | num (q : ℚ)
  | boolV (b : Bool)
  | noneV
  | dtV (d : PyDateTime)
  | dictV (entries : List (String × PyVal))

/-- A Python dict with string keys: insertion-ordered entries, unique keys. -/
abbrev PyDict := List (String × PyVal)

/-- Python `d.get(k)` / `k in d`: first entry with the key (unique in a
real dict). -/
def dictGet (d : PyDict) (k : String) : Option PyVal :=
  (d.find? (fun e => e.1 == k)).map Prod.snd

/-- Python `d.get(k, default)`. -/
def dictGetD (d : PyDict) (k : String) (v₀ : PyVal) : PyVal :=
  (dictGet d k).getD v₀

/-- Python `d[k] = v` (also the effect of a repeated key in a dict
literal / `**` merge): replace the value of an existing key in place,
else append. -/
def dictInsert (d : PyDict) (k : String) (v : PyVal) : PyDict :=
  if d.any (fun e => e.1 == k) then
    d.map (fun e => if e.1 == k then (e.1, v) else e)
  else
    d ++ [(k, v)]

/-- ASCII decimal digit test. -/
def isDigit09 (c : Char) : Bool :=
  '0' ≤ c && c ≤ '9'

/-- Whitespace as stripped by Python `float(str)`. -/
def isPySpace (c : Char) : Bool :=
  c = ' ' || c = '\t' || c = '\n' || c = '\r'

/-- Numeric value of a digit list. -/
def digitsToNat (cs : List Char) : Nat :=
  cs.foldl (fun a c => a * 10 + (c.toNat - '0'.toNat)) 0

/-- The decimal fragment of Python's builtin `float(str)`: optional
surrounding whitespace, optional sign, digits with an optional single
decimal point and at least one digit overall.  Exponent notation,
underscores and `inf`/`nan` are elided; no claim depends on them.
Returns `none` where `float()` raises `ValueError`. -/
def parsePyFloat (s : String) : Option ℚ :=
  let cs := (s.data.dropWhile isPySpace).reverse.dropWhile isPySpace |>.reverse
  let signAndRest : ℚ × List Char :=
    match cs with
    | '+' :: rest => (1, rest)
    | '-' :: rest => (-1, rest)
    | _ => (1, cs)
  let sign := signAndRest.1
  let body := signAndRest.2
  let intPart := body.takeWhile isDigit09
  let rest := body.dropWhile isDigit09
  match rest with
  | [] =>
    if intPart = [] then none
    else some (sign * (digitsToNat intPart : ℚ))
  | '.' :: frac =>
    if frac.all isDigit09 && !(intPart = [] && frac = []) then
      some (sign * ((digitsToNat intPart : ℚ) +
        (digitsToNat frac : ℚ) / ((10 : ℚ) ^ frac.length)))
    else none
  | _ => none

/-- Python `float(x)` on a payload value: numbers pass through, booleans
coerce (bool is an int subtype), strings go through the decimal parse;
`None`, datetimes and dicts raise `TypeError` (`none`). -/
def pyFloat : PyVal → Option ℚ
  | .num q => some q
  | .boolV b => some (if b then 1 else 0)
  | .str s => parsePyFloat s
  | _ => none

/-- Recognizer for `HH:MM` / `HH:MM:SS` time texts (common fragment of
`datetime.fromisoformat`; fractional seconds elided). -/
def isoTimeOk : List Char → Bool
  | [h1, h2, ':', m1, m2] => [h1, h2, m1, m2].all isDigit09
  | [h1, h2, ':', m1, m2, ':', s1, s2] => [h1, h2, m1, m2, s1, s2].all isDigit09
  | _ => false

/-- Recognizer for an optional `±HH:MM` timezone suffix. -/
def isoTzOk : List Char → Bool
  | [] => true
  | c :: rest => (c = '+' || c = '-') && isoTimeOk rest

/-- Recognizer for the time-of-day part with optional timezone. -/
def isoTimeTzOk (cs : List Char) : Bool :=
  isoTimeOk (cs.take 8) && isoTzOk (cs.drop 8) ||
    isoTimeOk (cs.take 5) && isoTzOk (cs.drop 5)

/-- The common fragment of `datetime.fromisoformat`: `YYYY-MM-DD`,
optionally followed by `T` or a space and a time with optional timezone.
Returns whether construction succeeds (`false` where Python raises). -/
def fromIsoFormatOk (cs : List Char) : Bool :=
  match cs with
  | [y1, y2, y3, y4, '-', m1, m2, '-', d1, d2] =>
    [y1, y2, y3, y4, m1, m2, d1, d2].all isDigit09
  | y1 :: y2 :: y3 :: y4 :: '-' :: m1 :: m2 :: '-' :: d1 :: d2 :: sep :: time =>
    [y1, y2, y3, y4, m1, m2, d1, d2].all isDigit09 &&
      (sep = 'T' || sep = ' ') && isoTimeTzOk time
  | _ => false

/-- The `Z`-suffix replacement in `IngressMessage.parse_timestamp`:
`v[:-1] + "+00:00"` when the text ends in `Z`. -/
def zReplace (cs : List Char) : List Char :=
  if cs.getLast? = some 'Z' then cs.dropLast ++ "+00:00".data else cs

/-- The `parse_timestamp` field validator of `IngressMessage`: a
`datetime` passes through, a string goes through `Z`-replacement and
`fromisoformat`, an int/float (booleans included, being ints) goes
through `fromtimestamp`; anything else raises (`none`). -/
def parseTimestamp : PyVal → Option PyDateTime
  | .dtV d => some d
  | .str s =>
    let cs := zReplace s.data
    if fromIsoFormatOk cs then some (.fromIso (String.mk cs)) else none
  | .num q => some (.fromUnix q)
  | .boolV b => some (.fromUnix (if b then 1 else 0))
  | _ => none

/-- The validated `IngressMessage` model (`io/schemas.py`). -/
structure IngressMessage where
  assetId : String
  timestamp : PyDateTime
  value : ℚ
  unit : Option String
  metadata : PyDict

/-- Pydantic validation of `IngressMessage(**raw)`: `asset_id` must be a
string, `timestamp` must pass `parse_timestamp`, `value` must coerce to
float (numbers and numeric strings; pydantic rejects booleans for float
fields), `unit` may be absent, `None` or a string, `metadata` may be
absent or a dict.  Extra keys are allowed (`extra: "allow"`).  Returns
`none` where pydantic raises a validation error. -/
def validateIngressMessage (raw : PyDict) : Option IngressMessage :=
  match dictGet raw "asset_id" with
  | some (.str a) =>
    match (dictGet raw "timestamp").bind parseTimestamp with
    | some ts =>
      let valueOk : Option ℚ :=
        match dictGet raw "value" with
        | some (.num q) => some q
        | some (.str s) => parsePyFloat s
        | _ => none
      match valueOk with
      | some v =>
        let unitOk : Option (Option String) :=
          match dictGet raw "unit" with
          | Option.none => some Option.none
          | some .noneV => some Option.none
          | some (.str u) => some (some u)
          | some _ => Option.none
        match unitOk with
        | some u =>
          match dictGet raw "metadata" with
          | Option.none => some ⟨a, ts, v, u, []⟩
          | some (.dictV m) => some ⟨a, ts, v, u, m⟩
          | some _ => Option.none
        | Option.none => Option.none
      | Option.none => Option.none
    | Option.none => Option.none
  | _ => Option.none

/-- How a call to `parse_ingress_message` can fail: a `ValidationError`
(raised explicitly under `strict=True`, or by pydantic inside the
fallback constructor when `asset_id` is present but not a string), or the
`ValueError`/`TypeError` of the fallback's uncaught `float(...)`. -/
inductive ParseFailure where
  | validationError
  | valueError
deriving DecidableEq, Repr

/-- `parse_ingress_message(raw, strict)` (`io/schemas.py`): try the full
pydantic validation; on failure raise `ValidationError` if strict, else
build the fallback message `IngressMessage(asset_id=raw.get("asset_id",
"unknown"), timestamp=datetime.now(), value=float(raw.get("value", 0.0)),
metadata=raw)`.  The fallback's `float(...)` and its pydantic validation
of `asset_id` are not guarded: their exceptions propagate.  `now` is the
abstract clock reading of `datetime.now()`. -/
def parse_ingress_message (raw : PyDict) (strict : Bool) (now : Nat) :
    Except ParseFailure IngressMessage :=
  match validateIngressMessage raw with
  | some m => .ok m
  | Option.none =>
    if strict then .error .validationError
    else
      match pyFloat (dictGetD raw "value" (.num 0)) with
      | Option.none => .error .valueError
      | some v =>
        match dictGetD raw "asset_id" (.str "unknown") with
        | .str a => .ok ⟨a, .nowAt now, v, Option.none, raw⟩
        | _ => .error .validationError

/-! ## Runtime controller (`runtime/runner.py`, class `TwinRuntime`)

Embedded per method. `RuntimeObs` is the observable component state that
`_readiness_check`, `_liveness_check` and `stop` read and write:
`_running.is_set()`, whether `_connector` is set and reports
`is_connected()`, whether `_model` is set, `len(self._sinks)`,
`len(self._worker_threads)` and whether `_health_server` is set. -/

structure RuntimeObs where
  running : Bool
  connector : Option Bool
  modelLoaded : Bool
  sinkCount : Nat
  workerCount : Nat
  healthPresent : Bool
deriving DecidableEq, Repr

namespace TwinRuntime

/-- `TwinRuntime._readiness_check`: `self._running.is_set() and
self._connector is not None and self._connector.is_connected() and
self._model is not None and len(self._sinks) > 0`, evaluated on the
current state at every call. -/
def readinessCheck (r : RuntimeObs) : Bool :=
  r.running &&
    (match r.connector with
     | some connected => connected
     | none => false) &&
    r.modelLoaded &&
    decide (0 < r.sinkCount)

/-- `TwinRuntime._liveness_check`: `self._running.is_set()`. -/
def livenessCheck (r : RuntimeObs) : Bool :=
  r.running

/-- One teardown action performed by `TwinRuntime.stop` (each is wrapped
in its own `try`/`except` in the source, so none of them can abort the
sequence or escape the call). -/
inductive StopStep where
  | joinWorker (i : Nat)
  | shutdownModel
  | flushCloseSink (i : Nat)
  | disconnectConnector
  | stopHealth
deriving DecidableEq, Repr

/-- `TwinRuntime.stop`: if `_running` is not set, return immediately with
no action; otherwise clear `_running`, join every worker, shut the model
down, flush and close every sink, disconnect the connector (clearing its
connected flag) and stop the health server.  Returns the new observable
state and the list of teardown steps performed. -/
def stop (s : RuntimeObs) : RuntimeObs × List StopStep :=
  if s.running then
    ({ s with running := false, connector := s.connector.map (fun _ => false) },
      (List.range s.workerCount).map .joinWorker
        ++ (if s.modelLoaded then [.shutdownModel] else [])
        ++ (List.range s.sinkCount).map .flushCloseSink
        ++ (if s.connector.isSome then [.disconnectConnector] else [])
        ++ (if s.healthPresent then [.stopHealth] else []))
  else
    (s, [])

/-- The identity fields `_create_record` reads from the configuration. -/
structure RunnerIdentity where
  assetId : String
  twinId : String
  modelVersion : String
deriving DecidableEq, Repr

/-- The set subtracted from the model output before the `**` merge in
`_create_record`. -/
def filteredKeys : List String :=
  ["raw_value", "twin_estimate", "anomaly_flag", "residual", "confidence"]

/-- `TwinRuntime._create_record(ingress, model_output)`: a dict literal of
the identity fields, both timestamps and the five known model-output
fields, followed by a `**` merge of every other model-output entry.
Later keys in a Python dict literal override earlier ones. -/
def createRecord (cfg : RunnerIdentity) (ingressTs processedAt : PyDateTime)
    (modelOutput : PyDict) : PyDict :=
  let base : PyDict :=
    [("asset_id", .str cfg.assetId),
     ("twin_id", .str cfg.twinId),
     ("model_version", .str cfg.modelVersion),
     ("timestamp", .str ingressTs.isoformat),
     ("processed_at", .str processedAt.isoformat),
     ("raw_value", dictGetD modelOutput "raw_value" .noneV),
     ("twin_estimate", dictGetD modelOutput "twin_estimate" .noneV),
     ("anomaly_flag", dictGetD modelOutput "anomaly_flag" (.boolV false)),
     ("residual", dictGetD modelOutput "residual" .noneV),
     ("confidence", dictGetD modelOutput "confidence" .noneV)]
  (modelOutput.filter (fun e => !(filteredKeys.contains e.1))).foldl
    (fun d e => dictInsert d e.1 e.2) base

/-- How `TwinRuntime.start` can fail: `load_model_block` raising, a sink
`open()` failing (re-raised as `SinkError`), `connect()` raising
`ConnectionError`, or `threading.Thread.start()` raising while spawning a
worker.  (Queue construction with a configured, validated policy and the
health-server step — whose failure is caught and only logged — cannot
abort the sequence.) -/
inductive StartFailure where
  | modelBlockError
  | sinkError
  | connectionError
  | workerSpawnError
deriving DecidableEq, Repr

/-- Failure environment for one `start()` attempt: whether model loading
succeeds, the outcome of each configured sink's `open()` (an empty list
means no sinks are configured, in which case the default `StdoutSink` —
whose `open()` is a no-op — is installed), whether `connect()` succeeds,
and the outcome of spawning each of the configured workers. -/
structure StartEnv where
  modelLoadOk : Bool
  sinkOpenOk : List Bool
  connectOk : Bool
  workerSpawnOk : List Bool
deriving DecidableEq, Repr

/-- Counters of component-lifecycle events during one `start()` attempt:
sinks opened / closed, workers spawned / stopped, and whether the running
flag was set. -/
structure StartTrace where
  sinksOpened : Nat
  sinksClosed : Nat
  workersSpawned : Nat
  workersStopped : Nat
  runningSet : Bool
deriving DecidableEq, Repr

/-- The loop of `TwinRuntime._init_sinks`: open each configured sink in
order, appending it to `_sinks`; the first failure is re-raised as
`SinkError`, with no `close()` on the sinks already opened. -/
def initSinksLoop : List Bool → Except StartFailure Unit × Nat
  | [] => (.ok (), 0)
  | ok :: rest =>
    if ok then
      let r := initSinksLoop rest
      (r.1, r.2 + 1)
    else
      (.error .sinkError, 0)

/-- `TwinRuntime._init_sinks`: with no configured sinks, install the
default `StdoutSink` (its `open()` cannot fail); otherwise run the loop. -/
def initSinks (env : StartEnv) : Except StartFailure Unit × Nat :=
  match env.sinkOpenOk with
  | [] => (.ok (), 1)
  | _ :: _ => initSinksLoop env.sinkOpenOk

/-- The worker-spawning loop of `TwinRuntime.start`: start each thread in
order and append it to `_worker_threads`; a failure propagates, with no
stop or join of the workers already spawned. -/
def spawnWorkersLoop : List Bool → Except StartFailure Unit × Nat
  | [] => (.ok (), 0)
  | ok :: rest =>
    if ok then
      let r := spawnWorkersLoop rest
      (r.1, r.2 + 1)
    else
      (.error .workerSpawnError, 0)

/-- `TwinRuntime.start`: construct the queue, load the model block, open
the sinks, connect, subscribe, start the health server (failures there
are caught and logged), set `_running` and spawn the workers.  No step is
wrapped in cleanup logic: the first failure propagates to the caller and
the attempt's trace records what had already been started (and that
nothing was closed or stopped). -/
def start (env : StartEnv) : Except StartFailure Unit × StartTrace :=
  if ¬ env.modelLoadOk then
    (.error .modelBlockError,
     { sinksOpened := 0, sinksClosed := 0, workersSpawned := 0,
       workersStopped := 0, runningSet := false })
  else
    let sinksRes := initSinks env
    match sinksRes.1 with
    | .error e =>
      (.error e,
       { sinksOpened := sinksRes.2, sinksClosed := 0, workersSpawned := 0,
         workersStopped := 0, runningSet := false })
    | .ok _ =>
      if ¬ env.connectOk then
        (.error .connectionError,
         { sinksOpened := sinksRes.2, sinksClosed := 0, workersSpawned := 0,
           workersStopped := 0, runningSet := false })
      else
        let spawnRes := spawnWorkersLoop env.workerSpawnOk
        (spawnRes.1.map (fun _ => ()),
         { sinksOpened := sinksRes.2, sinksClosed := 0,
           workersSpawned := spawnRes.2, workersStopped := 0,
           runningSet := true })

end TwinRuntime

end PyEdgeTwin

namespace PyEdgeTwin

open BoundedQueue MQTTConnector

/-! ## Queue lemmas -/

lemma isFull_true_iff {α : Type} (s : QueueState α) :
    isFull s = true ↔ 0 < s.maxsize ∧ s.maxsize ≤ s.items.length := by
  simp [isFull]

lemma isFull_false_iff {α : Type} (s : QueueState α) :
    isFull s = false ↔ s.maxsize = 0 ∨ s.items.length < s.maxsize := by
  simp [isFull]
  omega

/-- On a full `drop_oldest` queue, `put` removes exactly the oldest item,
admits the new one, and bumps the dropped counter once. -/
lemma put_dropOldest_full {α : Type} (s : QueueState α) (item : α) (freed : Bool)
    (hpol : s.policy = .dropOldest) (hm : 0 < s.maxsize)
    (hfull : s.items.length = s.maxsize) :
    put s item freed =
      ({ s with items := s.items.tail ++ [item],
                droppedCount := s.droppedCount + 1,
                totalPut := s.totalPut + 1 }, .ok true) := by
  rcases s with ⟨items, m, pol, d, t⟩
  simp only at hpol hm hfull
  subst hpol
  cases items with
  | nil =>
    simp only [List.length_nil] at hfull
    omega
  | cons a rest =>
    have hlen : rest.length + 1 = m := by simpa using hfull
    simp only [put, handleOverflow, isFull]
    have h1 : (0 < m && m ≤ (a :: rest).length) = true := by
      simp; omega
    have h2 : (0 < m && m ≤ rest.length) = true ↔ False := by
      simp; omega
    simp [h1, h2]
    omega

/-- On a full `block` queue, `put` admits the item only if a consumer
freed a slot during the wait, and otherwise raises `QueueOverflowError`
without touching the contents or the dropped counter. -/
lemma put_block_full {α : Type} (s : QueueState α) (item : α)
    (hpol : s.policy = .block) (hm : 0 < s.maxsize)
    (hfull : s.maxsize ≤ s.items.length) :
    put s item true =
      ({ s with items := s.items.tail ++ [item], totalPut := s.totalPut + 1 },
        .ok true) ∧
    put s item false =
      ({ s with totalPut := s.totalPut + 1 }, .overflowError) := by
  rcases s with ⟨items, m, pol, d, t⟩
  simp only at hpol hm hfull
  subst hpol
  have h1 : ((0 < m && m ≤ items.length) = true) := by simp; omega
  constructor <;> simp [put, handleOverflow, isFull, h1]

lemma handleOverflow_maxsize {α : Type} (s : QueueState α) (x : α) (f : Bool) :
    (handleOverflow s x f).1.maxsize = s.maxsize := by
  rcases s with ⟨items, m, pol, d, t⟩
  cases pol <;> cases items <;>
    simp [handleOverflow] <;> split_ifs <;> rfl

lemma put_maxsize {α : Type} (s : QueueState α) (x : α) (f : Bool) :
    (put s x f).1.maxsize = s.maxsize := by
  simp only [put]
  split_ifs with h
  · exact handleOverflow_maxsize _ x f
  · rfl

lemma step_maxsize {α : Type} (s : QueueState α) (op : QueueOp α) :
    (step s op).maxsize = s.maxsize := by
  cases op with
  | putOp x f => exact put_maxsize s x f
  | getOp =>
    rcases s with ⟨items, m, pol, d, t⟩
    cases items <;> rfl

lemma handleOverflow_size_le {α : Type} (s : QueueState α) (x : α) (f : Bool)
    (hm : 0 < s.maxsize) (hle : s.items.length ≤ s.maxsize) :
    (handleOverflow s x f).1.items.length ≤ s.maxsize := by
  rcases s with ⟨items, m, pol, d, t⟩
  simp only at hm hle ⊢
  cases pol with
  | dropOldest =>
    cases items with
    | nil =>
      have hc : ¬(0 < m ∧ m = 0) := by omega
      simp [handleOverflow, isFull, hc]
      omega
    | cons a rest =>
      simp only [List.length_cons] at hle
      simp [handleOverflow, isFull]
      split_ifs <;> simp <;> omega
  | dropNewest => simpa [handleOverflow] using hle
  | block =>
    cases f with
    | true =>
      cases items with
      | nil => simp [handleOverflow]; omega
      | cons a rest =>
        simp only [List.length_cons] at hle
        simp [handleOverflow]
        omega
    | false => simpa [handleOverflow] using hle

lemma put_size_le {α : Type} (s : QueueState α) (x : α) (f : Bool)
    (hm : 0 < s.maxsize) (hle : s.items.length ≤ s.maxsize) :
    (put s x f).1.items.length ≤ s.maxsize := by
  simp only [put]
  split_ifs with h
  · exact handleOverflow_size_le _ x f hm hle
  · simp only [Bool.not_eq_true] at h
    rw [isFull_false_iff] at h
    simp only [List.length_append, List.length_cons, List.length_nil] at *
    omega

lemma step_size_le {α : Type} (s : QueueState α) (op : QueueOp α)
    (hm : 0 < s.maxsize) (hle : s.items.length ≤ s.maxsize) :
    (step s op).items.length ≤ s.maxsize := by
  cases op with
  | putOp x f => exact put_size_le s x f hm hle
  | getOp =>
    rcases s with ⟨items, m, pol, d, t⟩
    cases items with
    | nil => exact hle
    | cons a rest =>
      simp only [List.length_cons] at hle
      simp [step, BoundedQueue.get]
      omega

lemma handleOverflow_dropped_le {α : Type} (s : QueueState α) (x : α) (f : Bool) :
    s.droppedCount ≤ (handleOverflow s x f).1.droppedCount := by
  rcases s with ⟨items, m, pol, d, t⟩
  cases pol <;> cases items <;> cases f <;>
    simp [handleOverflow] <;> split_ifs <;> simp

lemma step_dropped_le {α : Type} (s : QueueState α) (op : QueueOp α) :
    s.droppedCount ≤ (step s op).droppedCount := by
  cases op with
  | putOp x f =>
    have h := handleOverflow_dropped_le
      { s with totalPut := s.totalPut + 1 } x f
    simp only [step, put]
    split_ifs with hfull
    · exact h
    · simp
  | getOp =>
    rcases s with ⟨items, m, pol, d, t⟩
    cases items <;> simp [step, BoundedQueue.get]

lemma handleOverflow_totalPut {α : Type} (s : QueueState α) (x : α) (f : Bool) :
    (handleOverflow s x f).1.totalPut = s.totalPut := by
  rcases s with ⟨items, m, pol, d, t⟩
  cases pol <;> cases items <;> cases f <;>
    simp [handleOverflow] <;> split_ifs <;> rfl

lemma put_totalPut {α : Type} (s : QueueState α) (x : α) (f : Bool) :
    (put s x f).1.totalPut = s.totalPut + 1 := by
  simp only [put]
  split_ifs with h
  · exact handleOverflow_totalPut { s with totalPut := s.totalPut + 1 } x f
  · rfl

lemma step_totalPut {α : Type} (s : QueueState α) (op : QueueOp α) :
    (step s op).totalPut = s.totalPut + countPuts [op] := by
  cases op with
  | putOp x f => simpa [countPuts] using put_totalPut s x f
  | getOp =>
    rcases s with ⟨items, m, pol, d, t⟩
    cases items <;> simp [step, BoundedQueue.get, countPuts]

lemma run_maxsize {α : Type} (ops : List (QueueOp α)) (s : QueueState α) :
    (run s ops).maxsize = s.maxsize := by
  induction ops generalizing s with
  | nil => rfl
  | cons op rest ih =>
    simp only [run, List.foldl_cons] at *
    rw [ih (step s op), step_maxsize]

lemma run_size_le {α : Type} (ops : List (QueueOp α)) (s : QueueState α)
    (hm : 0 < s.maxsize) (hle : s.items.length ≤ s.maxsize) :
    (run s ops).items.length ≤ s.maxsize := by
  induction ops generalizing s with
  | nil => exact hle
  | cons op rest ih =>
    simp only [run, List.foldl_cons] at *
    have h1 := step_size_le s op hm hle
    have h2 := step_maxsize s op
    have := ih (step s op) (h2 ▸ hm) (h2 ▸ h1)
    omega

lemma run_dropped_le {α : Type} (ops : List (QueueOp α)) (s : QueueState α) :
    s.droppedCount ≤ (run s ops).droppedCount := by
  induction ops generalizing s with
  | nil => exact Nat.le_refl _
  | cons op rest ih =>
    simp only [run, List.foldl_cons] at *
    exact Nat.le_trans (step_dropped_le s op) (ih (step s op))

lemma run_totalPut {α : Type} (ops : List (QueueOp α)) (s : QueueState α) :
    (run s ops).totalPut = s.totalPut + countPuts ops := by
  induction ops generalizing s with
  | nil => simp [run, countPuts]
  | cons op rest ih =>
    simp only [run, List.foldl_cons] at *
    rw [ih (step s op), step_totalPut]
    simp [countPuts, List.countP_cons]
    split_ifs <;> omega

lemma run_append {α : Type} (s : QueueState α) (l₁ l₂ : List (QueueOp α)) :
    run s (l₁ ++ l₂) = run (run s l₁) l₂ := by
  simp [run, List.foldl_append]

/-! ## Claim theorems for the bounded queue -/

/-- C3: with the `drop_oldest` policy, `put` on a full queue removes
exactly the single oldest item, then admits the new item, increments the
dropped-item counter by exactly one, and never blocks (the call returns
`True` immediately); with capacity 3, putting A, B, C, D in order leaves
contents B, C, D in FIFO order with dropped count 1. -/
theorem claim_C3_drop_oldest_overflow :
    (∀ (α : Type) (s : QueueState α) (item : α) (freed : Bool),
        s.policy = .dropOldest → 0 < s.maxsize → s.items.length = s.maxsize →
        put s item freed =
          ({ s with items := s.items.tail ++ [item],
                    droppedCount := s.droppedCount + 1,
                    totalPut := s.totalPut + 1 }, .ok true)) ∧
    ((run (init String 3 .dropOldest)
        [.putOp "A" false, .putOp "B" false, .putOp "C" false,
         .putOp "D" false]).items = ["B", "C", "D"] ∧
      (run (init String 3 .dropOldest)
        [.putOp "A" false, .putOp "B" false, .putOp "C" false,
         .putOp "D" false]).droppedCount = 1 ∧
      (put (run (init String 3 .dropOldest)
        [.putOp "A" false, .putOp "B" false, .putOp "C" false]) "D" false).2
        = .ok true) := by
  refine ⟨fun α s item freed hpol hm hfull =>
    put_dropOldest_full s item freed hpol hm hfull, ?_, ?_, ?_⟩ <;> decide

/-- Witness for C3 at the concrete full queue `["x", "y"]` of capacity 2. -/
theorem claim_C3_witness :
    put (⟨["x", "y"], 2, .dropOldest, 0, 2⟩ : QueueState String) "z" false =
      (⟨["y", "z"], 2, .dropOldest, 1, 3⟩, .ok true) := by
  have h := claim_C3_drop_oldest_overflow.1 String
    ⟨["x", "y"], 2, .dropOldest, 0, 2⟩ "z" false rfl (by decide) (by decide)
  simpa using h

/-- C4: with the `block` policy, `put` on a full queue admits the item and
returns `True` when capacity frees up during the wait, and raises
`QueueOverflowError` — leaving the contents and the dropped counter
untouched, so no silent drop — when the timeout elapses with the queue
still full; with capacity 1, after one successful put, a second put whose
wait times out raises `QueueOverflowError`. -/
theorem claim_C4_block_overflow :
    (∀ (α : Type) (s : QueueState α) (item : α),
        s.policy = .block → 0 < s.maxsize → s.maxsize ≤ s.items.length →
        put s item true =
          ({ s with items := s.items.tail ++ [item],
                    totalPut := s.totalPut + 1 }, .ok true) ∧
        put s item false =
          ({ s with totalPut := s.totalPut + 1 }, .overflowError)) ∧
    (put (init String 1 .block) "item1" false =
      (⟨["item1"], 1, .block, 0, 1⟩, .ok true) ∧
     put (⟨["item1"], 1, .block, 0, 1⟩ : QueueState String) "item2" false =
      (⟨["item1"], 1, .block, 0, 2⟩, .overflowError)) := by
  exact ⟨fun α s item hpol hm hfull => put_block_full s item hpol hm hfull,
    by decide, by decide⟩

/-- Witness for C4 at the concrete full queue `["a"]` of capacity 1. -/
theorem claim_C4_witness :
    put (⟨["a"], 1, .block, 0, 1⟩ : QueueState String) "b" false =
      (⟨["a"], 1, .block, 0, 2⟩, .overflowError) := by
  have h := (claim_C4_block_overflow.1 String
    ⟨["a"], 1, .block, 0, 1⟩ "b" rfl (by decide) (by decide)).2
  simpa using h

/-- C5: for every operation sequence under any policy (on a queue
constructed with positive capacity, per the contract), the size stays
between 0 and the capacity after every operation; the dropped and
total-put counters are monotone non-decreasing along the run; and the
total-put counter equals the number of `put` calls issued, whatever each
put's outcome. -/
theorem claim_C5_queue_invariants (α : Type) (maxsize : Nat)
    (policy : OverflowPolicy) (ops : List (QueueOp α)) (hm : 0 < maxsize) :
    (∀ n, size (run (init α maxsize policy) (ops.take n)) ≤ maxsize) ∧
    (∀ n m, n ≤ m →
      (run (init α maxsize policy) (ops.take n)).droppedCount ≤
        (run (init α maxsize policy) (ops.take m)).droppedCount ∧
      (run (init α maxsize policy) (ops.take n)).totalPut ≤
        (run (init α maxsize policy) (ops.take m)).totalPut) ∧
    (run (init α maxsize policy) ops).totalPut = countPuts ops := by
  refine ⟨?_, ?_, ?_⟩
  · intro n
    exact run_size_le (ops.take n) (init α maxsize policy) hm (by simp [init])
  · intro n m hnm
    have hsplit : ops.take m = ops.take n ++ (ops.take m).drop n := by
      conv_lhs => rw [← List.take_append_drop n (ops.take m)]
      rw [List.take_take, Nat.min_eq_left hnm]
    constructor
    · rw [hsplit, run_append]
      exact run_dropped_le _ _
    · rw [hsplit, run_append,
        run_totalPut ((ops.take m).drop n) (run (init α maxsize policy) (ops.take n))]
      exact Nat.le_add_right _ _
  · rw [run_totalPut]
    simp [init]

/-- Witness for C5: capacity 2, `drop_oldest`, puts of 1, 2, 3 and a get. -/
theorem claim_C5_witness :
    (run (init Nat 2 .dropOldest)
        [.putOp 1 false, .putOp 2 false, .putOp 3 false, .getOp]).totalPut =
      countPuts [QueueOp.putOp 1 false, .putOp 2 false, .putOp 3 false,
        .getOp (α := Nat)] :=
  (claim_C5_queue_invariants Nat 2 .dropOldest
    [.putOp 1 false, .putOp 2 false, .putOp 3 false, .getOp]
    (by decide)).2.2

/-! ## Dispatch lemmas (`_find_callback` / `subscribe`) -/

lemma lookup_eq_some_of_mem_nodup {tbl : SubTable} {topic : String}
    {c : CallbackId} (hnd : (tbl.map Prod.fst).Nodup) (hmem : (topic, c) ∈ tbl) :
    tbl.lookup topic = some c := by
  induction tbl with
  | nil => cases hmem
  | cons e rest ih =>
    obtain ⟨k, v⟩ := e
    rw [List.map_cons, List.nodup_cons] at hnd
    rcases List.mem_cons.mp hmem with h | h
    · obtain ⟨hk, hv⟩ := Prod.mk.injEq .. ▸ h.symm
      simp [List.lookup, hk.symm, hv]
    · have hkt : k ≠ topic := by
        intro hkeq
        have htop : topic ∈ rest.map Prod.fst := List.mem_map_of_mem Prod.fst h
        exact hnd.1 (hkeq.symm ▸ htop)
      have hbeq : (topic == k) = false := by
        simpa using Ne.symm hkt
      simp only [List.lookup, hbeq]
      exact ih hnd.2 h

lemma lookup_eq_none_of_no_key {tbl : SubTable} {topic : String}
    (hex : ∀ e ∈ tbl, e.1 ≠ topic) : tbl.lookup topic = none := by
  induction tbl with
  | nil => rfl
  | cons e rest ih =>
    obtain ⟨k, v⟩ := e
    have hk : k ≠ topic := hex (k, v) (List.mem_cons_self _ _)
    have hbeq : (topic == k) = false := by
      simpa using Ne.symm hk
    simp only [List.lookup, hbeq]
    exact ih fun e he => hex e (List.mem_cons_of_mem _ he)

lemma find?_first_match {pre post : SubTable} {p topic : String}
    {c : CallbackId} (hp : matchesTopic p topic = true)
    (hpre : ∀ e ∈ pre, matchesTopic e.1 topic = false) :
    (pre ++ (p, c) :: post).find? (fun e => matchesTopic e.1 topic) =
      some (p, c) := by
  induction pre with
  | nil => simp [List.find?, hp]
  | cons e rest ih =>
    have he : matchesTopic e.1 topic = false := hpre e (List.mem_cons_self _ _)
    simp only [List.cons_append, List.find?, he]
    exact ih fun e' he' => hpre e' (List.mem_cons_of_mem _ he')

/-! ## Claim theorems for topic routing -/

/-- C6: the single-level wildcard `+` matches exactly one path segment and
the multi-level wildcard `#` matches the remainder of the path and
terminates the match; concretely, `sensors/+/temperature` matches
`sensors/motor-001/temperature` but not `sensors/motor-001/vibration/extra`,
and `sensors/#` matches both. -/
theorem claim_C6_topic_wildcards :
    matchesTopic "sensors/+/temperature" "sensors/motor-001/temperature" = true ∧
    matchesTopic "sensors/+/temperature" "sensors/motor-001/vibration/extra" = false ∧
    matchesTopic "sensors/#" "sensors/motor-001/temperature" = true ∧
    matchesTopic "sensors/#" "sensors/motor-001/vibration/extra" = true ∧
    (∀ (ps ts : List String) (seg : String),
        matchesTopicParts ("+" :: ps) (seg :: ts) = matchesTopicParts ps ts) ∧
    (∀ ps : List String, matchesTopicParts ("+" :: ps) [] = false) ∧
    (∀ ps ts : List String, matchesTopicParts ("#" :: ps) ts = true) := by
  refine ⟨by decide, by decide, by decide, by decide, ?_, ?_, ?_⟩
  · intro ps ts seg
    simp [matchesTopicParts]
  · intro ps
    simp [matchesTopicParts]
  · intro ps ts
    simp [matchesTopicParts]

/-- C7: dispatch selects at most one callback (`_find_callback` returns a
single `Option`): subscribing preserves the uniqueness of the pattern
table's keys, an exact-pattern entry wins over every wildcard entry
regardless of registration order, and with no exact entry the first
registered matching pattern wins. -/
theorem claim_C7_dispatch_priority :
    (∀ (tbl : SubTable) (topic : String) (cb : CallbackId),
        (tbl.map Prod.fst).Nodup →
        ((subscribe tbl topic cb).map Prod.fst).Nodup) ∧
    (∀ (tbl : SubTable) (topic : String) (c : CallbackId),
        (tbl.map Prod.fst).Nodup → (topic, c) ∈ tbl →
        findCallback tbl topic = some c) ∧
    (∀ (pre post : SubTable) (p topic : String) (c : CallbackId),
        (∀ e ∈ pre ++ (p, c) :: post, e.1 ≠ topic) →
        matchesTopic p topic = true →
        (∀ e ∈ pre, matchesTopic e.1 topic = false) →
        findCallback (pre ++ (p, c) :: post) topic = some c) := by
  refine ⟨?_, ?_, ?_⟩
  · intro tbl topic cb hnd
    unfold subscribe
    split_ifs with h
    · have hkeys :
          (tbl.map (fun e => if e.1 = topic then (e.1, cb) else e)).map Prod.fst
            = tbl.map Prod.fst := by
        rw [List.map_map]
        apply List.map_congr_left
        intro e _
        by_cases he : e.1 = topic <;> simp [he]
      rw [hkeys]
      exact hnd
    · rw [List.map_append, List.nodup_append]
      refine ⟨hnd, List.nodup_singleton _, ?_⟩
      intro k hk
      simp only [List.map_cons, List.map_nil, List.mem_singleton]
      intro hkt
      subst hkt
      rw [List.any_eq_true] at h
      rcases List.mem_map.mp hk with ⟨e, he, hke⟩
      exact h ⟨e, he, by simp [hke]⟩
  · intro tbl topic c hnd hmem
    unfold findCallback
    rw [lookup_eq_some_of_mem_nodup hnd hmem]
  · intro pre post p topic c hex hp hpre
    unfold findCallback
    rw [lookup_eq_none_of_no_key hex, find?_first_match hp hpre]
    rfl

/-- Witness for C7: a table whose first-registered wildcard matches the
topic while a later entry matches exactly — the exact entry wins. -/
theorem claim_C7_witness :
    findCallback [("sensors/#", 0), ("sensors/a/temperature", 1)]
      "sensors/a/temperature" = some 1 :=
  claim_C7_dispatch_priority.2.1
    [("sensors/#", 0), ("sensors/a/temperature", 1)]
    "sensors/a/temperature" 1 (by decide) (by decide)

/-! ## Claim theorems for the runtime controller -/

/-- C8: `_readiness_check` returns true iff the runtime is running, the
connector is present and reports connected, the model block is loaded and
at least one sink is present; flipping any single condition back makes it
false.  The predicate is a function of the current component state (no
caching in the source: every call re-reads the fields). -/
theorem claim_C8_readiness (r : RuntimeObs) :
    (TwinRuntime.readinessCheck r = true ↔
      (r.running = true ∧ r.connector = some true ∧ r.modelLoaded = true ∧
        0 < r.sinkCount)) ∧
    TwinRuntime.readinessCheck { r with running := false } = false ∧
    TwinRuntime.readinessCheck { r with connector := some false } = false ∧
    TwinRuntime.readinessCheck { r with modelLoaded := false } = false ∧
    TwinRuntime.readinessCheck { r with sinkCount := 0 } = false := by
  rcases r with ⟨running, conn, model, sinks, workers, health⟩
  refine ⟨?_, ?_, ?_, ?_, ?_⟩
  · cases conn with
    | none => simp [TwinRuntime.readinessCheck]
    | some b => cases b <;> simp [TwinRuntime.readinessCheck, and_assoc]
  · simp [TwinRuntime.readinessCheck]
  · simp [TwinRuntime.readinessCheck]
  · simp [TwinRuntime.readinessCheck]
  · simp [TwinRuntime.readinessCheck]

/-- C9: `stop()` is idempotent — after one `stop`, a second `stop` finds
the running flag cleared and returns immediately: it performs no teardown
steps, raises nothing (every teardown step in the source is individually
guarded, so `stop` never raises), and leaves the observable state exactly
as the first call left it. -/
theorem claim_C9_stop_idempotent (s : RuntimeObs) :
    TwinRuntime.stop (TwinRuntime.stop s).1 = ((TwinRuntime.stop s).1, []) := by
  rcases s with ⟨running, conn, model, sinks, workers, health⟩
  cases running <;> simp [TwinRuntime.stop]

/-! ## Dictionary lemmas for `_create_record` -/

lemma dictGet_cons (e : String × PyVal) (d : PyDict) (k : String) :
    dictGet (e :: d) k = if e.1 == k then some e.2 else dictGet d k := by
  simp only [dictGet, List.find?]
  cases h : (e.1 == k) <;> simp [h]

lemma dictGet_map_update_ne (d : PyDict) {k k' : String} (v : PyVal)
    (h : (k' == k) = false) :
    dictGet (d.map (fun e => if e.1 == k' then (e.1, v) else e)) k =
      dictGet d k := by
  induction d with
  | nil => rfl
  | cons e rest ih =>
    rw [List.map_cons, dictGet_cons, dictGet_cons]
    cases he : (e.1 == k') with
    | true =>
      have h2 : (e.1 == k) = false := by
        have h1 : e.1 = k' := by simpa using he
        rw [h1]
        exact h
      rw [if_pos rfl]
      show (if e.1 == k then some v else
          dictGet (rest.map (fun e => if e.1 == k' then (e.1, v) else e)) k) =
        if e.1 == k then some e.2 else dictGet rest k
      rw [h2, if_neg Bool.false_ne_true, if_neg Bool.false_ne_true]
      exact ih
    | false =>
      rw [if_neg Bool.false_ne_true]
      show (if e.1 == k then some e.2 else
          dictGet (rest.map (fun e => if e.1 == k' then (e.1, v) else e)) k) =
        if e.1 == k then some e.2 else dictGet rest k
      rw [ih]

lemma dictGet_map_update_self (d : PyDict) {k : String} (v : PyVal)
    (hc : d.any (fun e => e.1 == k) = true) :
    dictGet (d.map (fun e => if e.1 == k then (e.1, v) else e)) k =
      some v := by
  induction d with
  | nil => simp at hc
  | cons e rest ih =>
    rw [List.map_cons, dictGet_cons]
    cases he : (e.1 == k) with
    | true =>
      rw [if_pos rfl]
      show (if e.1 == k then some v else
          dictGet (rest.map (fun e => if e.1 == k then (e.1, v) else e)) k) =
        some v
      rw [if_pos he]
    | false =>
      have hrest : rest.any (fun e => e.1 == k) = true := by
        simpa [List.any_cons, he] using hc
      rw [if_neg Bool.false_ne_true]
      show (if e.1 == k then some e.2 else
          dictGet (rest.map (fun e => if e.1 == k then (e.1, v) else e)) k) =
        some v
      rw [he, if_neg Bool.false_ne_true]
      exact ih hrest

lemma dictGet_append (d d' : PyDict) (k : String) :
    dictGet (d ++ d') k =
      match dictGet d k with
      | some v => some v
      | none => dictGet d' k := by
  induction d with
  | nil => rfl
  | cons e rest ih =>
    simp only [List.cons_append, dictGet_cons]
    cases h : (e.1 == k) <;> simp [h, ih]

lemma dictGet_eq_none_of_no_key (d : PyDict) (k : String)
    (h : ∀ e ∈ d, (e.1 == k) = false) : dictGet d k = none := by
  induction d with
  | nil => rfl
  | cons e rest ih =>
    rw [dictGet_cons, h e (List.mem_cons_self _ _),
      if_neg Bool.false_ne_true]
    exact ih fun e' he' => h e' (List.mem_cons_of_mem _ he')

lemma dictGet_dictInsert_self (d : PyDict) (k : String) (v : PyVal) :
    dictGet (dictInsert d k v) k = some v := by
  unfold dictInsert
  split_ifs with hc
  · exact dictGet_map_update_self d v hc
  · rw [dictGet_append]
    have hnone : dictGet d k = none := by
      apply dictGet_eq_none_of_no_key
      intro e he
      by_contra hek
      apply hc
      rw [List.any_eq_true]
      exact ⟨e, he, by simpa using hek⟩
    rw [hnone]
    simp [dictGet_cons]

lemma dictGet_dictInsert_ne (d : PyDict) {k k' : String} (v : PyVal)
    (h : (k' == k) = false) :
    dictGet (dictInsert d k' v) k = dictGet d k := by
  unfold dictInsert
  split_ifs with hc
  · exact dictGet_map_update_ne d v h
  · rw [dictGet_append]
    cases hd : dictGet d k with
    | some v' => rfl
    | none => simp [dictGet_cons, h, dictGet]

lemma dictGet_foldl_insert_not_mem (l : PyDict) (d : PyDict) (k : String)
    (h : ∀ e ∈ l, (e.1 == k) = false) :
    dictGet (l.foldl (fun acc e => dictInsert acc e.1 e.2) d) k =
      dictGet d k := by
  induction l generalizing d with
  | nil => rfl
  | cons e rest ih =>
    simp only [List.foldl_cons]
    rw [ih _ (fun e' he' => h e' (List.mem_cons_of_mem _ he'))]
    exact dictGet_dictInsert_ne d e.2 (h e (List.mem_cons_self _ _))

lemma dictGet_foldl_insert_mem (l : PyDict) (d : PyDict) (k : String)
    (v : PyVal) (hmem : (k, v) ∈ l) (hnd : (l.map Prod.fst).Nodup) :
    dictGet (l.foldl (fun acc e => dictInsert acc e.1 e.2) d) k = some v := by
  induction l generalizing d with
  | nil => cases hmem
  | cons e rest ih =>
    rw [List.map_cons, List.nodup_cons] at hnd
    simp only [List.foldl_cons]
    rcases List.mem_cons.mp hmem with h | h
    · have hk : e.1 = k := by rw [← h]
      have hv : e.2 = v := by rw [← h]
      have hrest : ∀ e' ∈ rest, (e'.1 == k) = false := by
        intro e' he'
        have hne : e'.1 ≠ e.1 := fun heq =>
          hnd.1 (heq ▸ List.mem_map_of_mem Prod.fst he')
        rw [hk] at hne
        simpa using hne
      rw [dictGet_foldl_insert_not_mem rest _ k hrest, ← hk, ← hv]
      exact dictGet_dictInsert_self d e.1 e.2
    · exact ih (dictInsert d e.1 e.2) h hnd.2

/-! ## Claim theorems for record building, startup and parsing -/

/-- C10: any model-output key outside the filtered set
`{raw_value, twin_estimate, anomaly_flag, residual, confidence}` is merged
last into the record built by `_create_record`, so its value silently
overrides whatever the earlier literal entries put there — in particular
the runtime-supplied `asset_id`, `twin_id`, `model_version`, `timestamp`
and `processed_at` fields, as the concrete conjunct shows for
`asset_id`. -/
theorem claim_C10_record_override :
    (∀ (cfg : TwinRuntime.RunnerIdentity) (its pts : PyDateTime)
        (mo : PyDict) (k : String) (v : PyVal),
        (mo.map Prod.fst).Nodup →
        TwinRuntime.filteredKeys.contains k = false →
        (k, v) ∈ mo →
        dictGet (TwinRuntime.createRecord cfg its pts mo) k = some v) ∧
    dictGet
      (TwinRuntime.createRecord ⟨"asset-real", "twin-real", "1.0.0"⟩
        (.fromIso "2024-01-15T12:00:00+00:00") (.utcNowAt 7)
        [("asset_id", .str "spoofed"), ("raw_value", .num 1)])
      "asset_id" = some (.str "spoofed") := by
  constructor
  · intro cfg its pts mo k v hnd hfilt hmem
    unfold TwinRuntime.createRecord
    have hmem' : (k, v) ∈ mo.filter
        (fun e => !(TwinRuntime.filteredKeys.contains e.1)) := by
      rw [List.mem_filter]
      exact ⟨hmem, by simp only [Bool.not_eq_true']; exact hfilt⟩
    have hnd' : ((mo.filter
        (fun e => !(TwinRuntime.filteredKeys.contains e.1))).map
          Prod.fst).Nodup :=
      ((List.filter_sublist mo).map Prod.fst).nodup hnd
    exact dictGet_foldl_insert_mem _ _ k v hmem' hnd'
  · rfl

/-- Witness for C10: a model output carrying an extra `twin_id` key. -/
theorem claim_C10_witness :
    dictGet
      (TwinRuntime.createRecord ⟨"a1", "t1", "v1"⟩ (.utcNowAt 0) (.utcNowAt 1)
        [("twin_id", .str "hijacked")]) "twin_id" = some (.str "hijacked") :=
  claim_C10_record_override.1 ⟨"a1", "t1", "v1"⟩ (.utcNowAt 0) (.utcNowAt 1)
    [("twin_id", .str "hijacked")] "twin_id" (.str "hijacked")
    (by simp) (by decide) (by simp)

/-- C1 is false on the code: `start()` performs no teardown of components
already started when a later step fails.  Concretely, with one sink that
opens successfully and a connector whose `connect()` raises, `start`
propagates the `ConnectionError` while the opened sink was never closed. -/
theorem claim_C1_counterexample :
    (TwinRuntime.start ⟨true, [true], false, [true]⟩).1 =
      .error .connectionError ∧
    (TwinRuntime.start ⟨true, [true], false, [true]⟩).2.sinksOpened = 1 ∧
    (TwinRuntime.start ⟨true, [true], false, [true]⟩).2.sinksClosed = 0 := by
  refine ⟨rfl, rfl, rfl⟩

/-- C1 (amended): when any step of `start()` fails, the sequence aborts
and the error is raised to the caller, but nothing is torn down — in
every execution of `start` no sink is closed and no worker is stopped, so
sinks opened and workers spawned before the failing step are left
open/running.  (The abort itself is shown for a failing `connect()`.) -/
theorem claim_C1_amended_no_teardown (env : TwinRuntime.StartEnv) :
    (TwinRuntime.start env).2.sinksClosed = 0 ∧
    (TwinRuntime.start env).2.workersStopped = 0 ∧
    (env.modelLoadOk = true → env.connectOk = false →
      (TwinRuntime.initSinks env).1 = .ok () →
      (TwinRuntime.start env).1 = .error .connectionError) := by
  rcases env with ⟨ml, so, co, ws⟩
  cases ml with
  | false => exact ⟨rfl, rfl, fun h => by cases h⟩
  | true =>
    cases hs : (TwinRuntime.initSinks ⟨true, so, co, ws⟩).1 with
    | error e =>
      refine ⟨?_, ?_, ?_⟩ <;>
        simp [TwinRuntime.start, hs]
    | ok u =>
      cases co with
      | false =>
        refine ⟨?_, ?_, ?_⟩ <;>
          simp [TwinRuntime.start, hs]
      | true =>
        refine ⟨?_, ?_, fun _ hco => by cases hco⟩ <;>
          simp [TwinRuntime.start, hs]

/-- Witness for C1 (amended) at the counterexample environment. -/
theorem claim_C1_witness :
    (TwinRuntime.start ⟨true, [true], false, [true]⟩).2.sinksClosed = 0 ∧
    (TwinRuntime.start ⟨true, [true], false, [true]⟩).2.workersStopped = 0 ∧
    (TwinRuntime.start ⟨true, [true], false, [true]⟩).1 =
      .error .connectionError :=
  ⟨(claim_C1_amended_no_teardown ⟨true, [true], false, [true]⟩).1,
   (claim_C1_amended_no_teardown ⟨true, [true], false, [true]⟩).2.1,
   (claim_C1_amended_no_teardown ⟨true, [true], false, [true]⟩).2.2
     rfl rfl rfl⟩

/-- C2 is a code bug: `parse_ingress_message` with `strict=False` is
documented (and specified) never to raise, but its fallback constructor
calls `float(raw.get("value", 0.0))` unguarded — on the payload
`{"value": "oops"}` the `float` conversion raises `ValueError`, which
propagates to the caller. -/
theorem claim_C2_lenient_parse_raises :
    parse_ingress_message [("value", PyVal.str "oops")] false 0 =
      .error .valueError := rfl

end PyEdgeTwin
